import Mathlib

/-!
Verification development for the Gmail MCP server message codec
(src/src/services/gmail.ts and src/src/tools/write.ts).

The definitions below are shallow embeddings of the TypeScript source.
JavaScript optional values are modelled with Option; JavaScript truthiness
on optional strings (undefined, null and the empty string are all falsy)
is modelled by comparing the Option.getD default against the empty
string.  Bytes are modelled as Nat values below 256.
-/

namespace GmailCodec

/-! ## Base64url codec (models Node Buffer base64url conversions)

The source functions are
  decodeBase64Url(data) = Buffer.from(data, "base64url").toString("utf-8")
  encodeBase64Url(data) = Buffer.from(data, "utf-8").toString("base64url")
Node produces unpadded base64url on encode.  On decode Node is lenient
and never throws: its unbase64 table maps the characters of both
alphabets to sextets (plus and slash give 62 and 63 alongside minus and
underscore), every other character is skipped with decoding continuing
after it, except an equals sign, which terminates decoding. -/

/-- The base64url alphabet (RFC 4648 section 5). -/
def b64UrlAlphabet : List Char :=
  "ABCDEFGHIJKLMNOPQRSTUVWXYZabcdefghijklmnopqrstuvwxyz0123456789-_".data

/-- The standard base64 alphabet (RFC 4648 section 4), used by Node
Buffer.toString with encoding base64 for attachment bodies. -/
def b64StdAlphabet : List Char :=
  "ABCDEFGHIJKLMNOPQRSTUVWXYZabcdefghijklmnopqrstuvwxyz0123456789+/".data

/-- Character of the base64url alphabet at a given sextet value. -/
def sextetChar (n : Nat) : Char := b64UrlAlphabet.getD n 'A'

/-- Character of the standard base64 alphabet at a given sextet value. -/
def sextetCharStd (n : Nat) : Char := b64StdAlphabet.getD n 'A'

/-- Lookup of a character in an alphabet, returning its index. -/
def charIdxAux : List Char → Char → Nat → Option Nat
  | [], _, _ => none
  | a :: rest, c, i => if a = c then some i else charIdxAux rest c (i + 1)

/-- Sextet value of a character under the unbase64 table Node uses for
every base64 flavour: the base64url alphabet positions, with plus and
slash also mapping to 62 and 63; none for every other character. -/
def charSextet (c : Char) : Option Nat :=
  match charIdxAux b64UrlAlphabet c 0 with
  | some s => some s
  | none => if c = '+' then some 62 else if c = '/' then some 63 else none

/-- Sextet stream of a byte list: three bytes yield four sextets, a
trailing byte yields two sextets and two trailing bytes yield three
(unpadded base64url, as produced by Node Buffer.toString base64url). -/
def encSex : List Nat → List Nat
  | [] => []
  | [b1] => [b1 / 4, b1 % 4 * 16]
  | [b1, b2] => [b1 / 4, b1 % 4 * 16 + b2 / 16, b2 % 16 * 4]
  | b1 :: b2 :: b3 :: rest =>
    b1 / 4 :: (b1 % 4 * 16 + b2 / 16) :: (b2 % 16 * 4 + b3 / 64) :: b3 % 64 :: encSex rest

/-- Byte-level base64url encoder: the Buffer.toString base64url step. -/
def encodeBase64UrlBytes (l : List Nat) : String :=
  String.mk ((encSex l).map sextetChar)

/-- Lenient scan of a character list into sextets, the loop of the Node
base64 decoder: characters of the table are collected, an equals sign
terminates the scan, and every other character is skipped with the scan
continuing after it; no input is ever reported as an error. -/
def sextetsOf : List Char → List Nat
  | [] => []
  | c :: cs =>
    match charSextet c with
    | some s => s :: sextetsOf cs
    | none => if c = '=' then [] else sextetsOf cs

/-- Byte reconstruction from a sextet stream; a single trailing sextet
carries fewer than eight bits and is dropped, two trailing sextets give
one byte and three give two bytes (Node lenient decode). -/
def decSextets : List Nat → List Nat
  | [] => []
  | [_] => []
  | [s1, s2] => [s1 * 4 + s2 / 16]
  | [s1, s2, s3] => [s1 * 4 + s2 / 16, s2 % 16 * 16 + s3 / 4]
  | s1 :: s2 :: s3 :: s4 :: rest =>
    (s1 * 4 + s2 / 16) :: (s2 % 16 * 16 + s3 / 4) :: (s3 % 4 * 64 + s4) :: decSextets rest

/-- Byte-level base64url decoder: the Buffer.from base64url step.
Total: characters outside the table are skipped, an equals sign stops
the decode, and no input raises an error. -/
def decodeBase64UrlBytes (s : String) : List Nat :=
  decSextets (sextetsOf s.data)

/-- Standard base64 character stream with padding, as produced by Node
Buffer.toString base64 (used for attachment bodies in write.ts). -/
def encSexStdChars : List Nat → List Char
  | [] => []
  | [b1] => [sextetCharStd (b1 / 4), sextetCharStd (b1 % 4 * 16), '=', '=']
  | [b1, b2] =>
    [sextetCharStd (b1 / 4), sextetCharStd (b1 % 4 * 16 + b2 / 16), sextetCharStd (b2 % 16 * 4), '=']
  | b1 :: b2 :: b3 :: rest =>
    sextetCharStd (b1 / 4) :: sextetCharStd (b1 % 4 * 16 + b2 / 16) ::
      sextetCharStd (b2 % 16 * 4 + b3 / 64) :: sextetCharStd (b3 % 64) :: encSexStdChars rest

/-- Standard padded base64 encoder, content.toString base64 in write.ts. -/
def encodeBase64Std (l : List Nat) : String :=
  String.mk (encSexStdChars l)

/-! ## UTF-8 (models Buffer.from utf-8 / Buffer.toString utf-8)

Only well formed scalar values appear in the concrete inputs used below;
the decoder is total and substitutes U+FFFD for invalid sequences, the
lenient behaviour of Node Buffer.toString utf-8. -/

/-- UTF-8 bytes of one scalar value. -/
def utf8EncodeChar (c : Char) : List Nat :=
  let n := c.toNat
  if n < 128 then [n]
  else if n < 2048 then [192 + n / 64, 128 + n % 64]
  else if n < 65536 then [224 + n / 4096, 128 + n / 64 % 64, 128 + n % 64]
  else [240 + n / 262144, 128 + n / 4096 % 64, 128 + n / 64 % 64, 128 + n % 64]

/-- UTF-8 byte sequence of a string, Buffer.from with encoding utf-8. -/
def utf8Encode (s : String) : List Nat :=
  (s.data.map utf8EncodeChar).flatten

/-- Continuation byte test. -/
def isCont (b : Nat) : Bool := 128 ≤ b && b < 192

/-- The replacement character U+FFFD. -/
def replChar : Char := Char.ofNat 65533

/-- Scalar value constructor guarded against surrogates and overflow. -/
def mkScalar (n : Nat) : Char :=
  if n < 55296 ∨ (57343 < n ∧ n < 1114112) then Char.ofNat n else replChar

/-- Scalar value of one multi byte sequence given the lead byte and the
continuation bytes, with overlong and surrogate guards. -/
def utf8Char (b : Nat) (conts : List Nat) : Char :=
  match conts with
  | [b2] =>
    if 194 ≤ b then mkScalar ((b - 192) * 64 + (b2 - 128)) else replChar
  | [b2, b3] =>
    let n := (b - 224) * 4096 + (b2 - 128) * 64 + (b3 - 128)
    if 2048 ≤ n then mkScalar n else replChar
  | [b2, b3, b4] =>
    let n := (b - 240) * 262144 + (b2 - 128) * 4096 + (b3 - 128) * 64 + (b4 - 128)
    if 65536 ≤ n then mkScalar n else replChar
  | _ => replChar

/-- Total UTF-8 decoder over byte lists, lenient in the style of Node
Buffer.toString utf-8: malformed sequences produce U+FFFD, a truncated
final sequence produces a single U+FFFD. -/
def utf8DecodeList : List Nat → List Char
  | [] => []
  | b :: rest =>
    if b < 128 then mkScalar b :: utf8DecodeList rest
    else if b < 192 then replChar :: utf8DecodeList rest
    else
      let need := if b < 224 then 1 else if b < 240 then 2 else 3
      if need ≤ rest.length ∧ (rest.take need).all isCont then
        utf8Char b (rest.take need) :: utf8DecodeList (rest.drop need)
      else if rest.length < need then [replChar]
      else replChar :: utf8DecodeList rest
termination_by l => l.length
decreasing_by
all_goals simp [List.length_cons, List.length_drop]
all_goals omega

/-- Byte list to string, Buffer.toString with encoding utf-8. -/
def utf8Decode (l : List Nat) : String :=
  String.mk (utf8DecodeList l)

/-! ## HTML to text degradation (source gmail.ts stripHtmlTags, lines 23-36)

The TypeScript function is a chain of String.replace calls with global
regular expressions.  Each replace scans the original string left to
right, substituting non overlapping matches; replacement text is never
rescanned.  The pieces below model the individual regular expressions. -/

/-- Whitespace class of JavaScript regular expressions and of
String.prototype.trim (the common members; the exotic Unicode space
code points are included by code point value). -/
def jsWhitespace (c : Char) : Bool :=
  c.toNat ∈ [9, 10, 11, 12, 13, 32, 160, 5760, 8192, 8193, 8194, 8195, 8196,
    8197, 8198, 8199, 8200, 8201, 8202, 8232, 8233, 8239, 8287, 12288, 65279]

/-- ASCII lower casing, the effect of toLowerCase on header names and
file extensions (all ASCII in this code base). -/
def lowerChar (c : Char) : Char :=
  if 'A' ≤ c ∧ c ≤ 'Z' then Char.ofNat (c.toNat + 32) else c

/-- ASCII lower casing of a string. -/
def lowerStr (s : String) : String :=
  String.mk (s.data.map lowerChar)

/-- Case insensitive character comparison used by the i regex flag. -/
def charEqCI (a b : Char) : Bool := lowerChar a = lowerChar b

/-- Case sensitive character comparison. -/
def charEqCS (a b : Char) : Bool := a = b

/-- Prefix test under a character comparison. -/
def isPrefixOfBy (eqf : Char → Char → Bool) : List Char → List Char → Bool
  | [], _ => true
  | _ :: _, [] => false
  | p :: ps, c :: cs => eqf p c && isPrefixOfBy eqf ps cs

/-- Global replacement of a literal pattern, scanning left to right with
non overlapping matches and without rescanning replacement text: the
semantics of String.replace with a global literal style regex. -/
def replaceAllBy (eqf : Char → Char → Bool) (pat repl : List Char) : List Char → List Char
  | [] => []
  | c :: cs =>
    if !pat.isEmpty && isPrefixOfBy eqf pat (c :: cs) then
      repl ++ replaceAllBy eqf pat repl (cs.drop (pat.length - 1))
    else
      c :: replaceAllBy eqf pat repl cs
termination_by l => l.length
decreasing_by
all_goals simp [List.length_cons, List.length_drop]
all_goals omega

/-- Dropping a prefix by a predicate never lengthens a list. -/
theorem dropWhileLenLe {α : Type} (p : α → Bool) (l : List α) :
    (l.dropWhile p).length ≤ l.length := by
  induction l with
  | nil => simp [List.dropWhile]
  | cons c cs ih =>
    by_cases h : p c
    · simp [List.dropWhile, h]
      omega
    · simp [List.dropWhile, h]

/-- Matcher of the regex br with optional whitespace and an optional
closing slash: on success returns the input after the matched tag.
Attributes are not matched: after br only whitespace, an optional slash
and the closing angle bracket are accepted. -/
def matchBrTail (l : List Char) : Option (List Char) :=
  match l.dropWhile jsWhitespace with
  | '/' :: '>' :: t => some t
  | '>' :: t => some t
  | _ => none

/-- Matcher anchored at one position for the br regex of the source. -/
def matchBr : List Char → Option (List Char)
  | '<' :: b :: r :: rest =>
    if (b = 'b' ∨ b = 'B') ∧ (r = 'r' ∨ r = 'R') then matchBrTail rest else none
  | _ => none

/-- Auxiliary bound used for the termination of the br replacement. -/
theorem matchBrTail_length {l t : List Char} (h : matchBrTail l = some t) :
    t.length ≤ l.length := by
  unfold matchBrTail at h
  have hd : (l.dropWhile jsWhitespace).length ≤ l.length := dropWhileLenLe jsWhitespace l
  split at h
  case _ t2 heq =>
    cases h
    rw [heq] at hd
    simp [List.length_cons] at hd
    omega
  case _ t2 heq =>
    cases h
    rw [heq] at hd
    simp [List.length_cons] at hd
    omega
  case _ => cases h

/-- Auxiliary bound used for the termination of the br replacement. -/
theorem matchBr_length {l t : List Char} (h : matchBr l = some t) :
    t.length < l.length := by
  unfold matchBr at h
  split at h
  case _ b r rest =>
    split at h
    case isTrue =>
      have := matchBrTail_length h
      simp [List.length_cons]
      omega
    case isFalse => cases h
  case _ => cases h

/-- The default argument keeps the recursion measure decreasing in both
branches of the br replacement. -/
theorem matchBr_getD_length (c : Char) (cs : List Char) :
    (((matchBr (c :: cs)).getD cs).length) < (c :: cs).length := by
  cases hm : matchBr (c :: cs) with
  | none => simp [List.length_cons]
  | some r =>
    have := matchBr_length hm
    simpa using this

/-- Global replacement of br tags by a newline, first replace call of
stripHtmlTags. -/
def replaceBrAll : List Char → List Char
  | [] => []
  | c :: cs =>
    if (matchBr (c :: cs)).isSome then
      '\n' :: replaceBrAll ((matchBr (c :: cs)).getD cs)
    else c :: replaceBrAll cs
termination_by l => l.length
decreasing_by
· exact matchBr_getD_length c cs
· simp [List.length_cons]

/-- Matcher for the generic tag stripping regex at a position just after
an opening angle bracket: at least one character not a closing bracket,
then the first closing bracket; on success returns the input after the
bracket. -/
def tagRest (cs : List Char) : Option (List Char) :=
  match cs.dropWhile (fun c => !(c = '>')) with
  | '>' :: t => if (cs.takeWhile (fun c => !(c = '>'))).isEmpty then none else some t
  | _ => none

/-- Bound for the termination of the tag stripping recursion. -/
theorem tagRest_length {cs t : List Char} (h : tagRest cs = some t) :
    t.length < cs.length + 1 := by
  unfold tagRest at h
  have hd : (cs.dropWhile (fun c => !(c = '>'))).length ≤ cs.length :=
    dropWhileLenLe _ cs
  split at h
  case _ t2 heq =>
    split at h
    case isTrue => cases h
    case isFalse =>
      cases h
      rw [heq] at hd
      simp [List.length_cons] at hd
      omega
  case _ => cases h

/-- The default argument keeps the recursion measure decreasing in both
branches of the tag stripping. -/
theorem tagRest_getD_length (cs : List Char) :
    ((tagRest cs).getD cs).length < cs.length + 1 := by
  cases hm : tagRest cs with
  | none => simp
  | some r =>
    have := tagRest_length hm
    simpa using this

/-- Global replacement for the generic tag stripping regex: the match is
removed; positions without a match emit their character unchanged. -/
def stripTagsAll : List Char → List Char
  | [] => []
  | '<' :: cs =>
    if (tagRest cs).isSome then stripTagsAll ((tagRest cs).getD cs)
    else '<' :: stripTagsAll cs
  | c :: cs => c :: stripTagsAll cs
termination_by l => l.length
decreasing_by
· have := tagRest_getD_length cs
  simpa using this
all_goals simp [List.length_cons]

/-- JavaScript String.prototype.trim over the JavaScript whitespace
class. -/
def jsTrim (l : List Char) : List Char :=
  ((l.dropWhile jsWhitespace).reverse.dropWhile jsWhitespace).reverse

/-- Source gmail.ts line 23: stripHtmlTags, the chain of replace calls
ending in trim. -/
def stripHtmlTags (html : String) : String :=
  String.mk (jsTrim
    (replaceAllBy charEqCS "&#39;".data [Char.ofNat 39]
      (replaceAllBy charEqCS "&quot;".data "\"".data
        (replaceAllBy charEqCS "&gt;".data ">".data
          (replaceAllBy charEqCS "&lt;".data "<".data
            (replaceAllBy charEqCS "&amp;".data "&".data
              (replaceAllBy charEqCS "&nbsp;".data " ".data
                (stripTagsAll
                  (replaceAllBy charEqCI "</div>".data "\n".data
                    (replaceAllBy charEqCI "</p>".data "\n\n".data
                      (replaceBrAll html.data)))))))))))

/-- Source gmail.ts line 15: decodeBase64Url. -/
def decodeBase64Url (data : String) : String :=
  utf8Decode (decodeBase64UrlBytes data)

/-- Source gmail.ts line 19: encodeBase64Url. -/
def encodeBase64Url (data : String) : String :=
  encodeBase64UrlBytes (utf8Encode data)

/-! ## The Part tree (gmail_v1.Schema$MessagePart)

Fields that the source reads are modelled; every field is optional as in
the API schema.  The body field of a part carries optional inline data,
an optional size and an optional attachment id.  Children are an
optional list: in JavaScript an absent parts field is falsy while an
empty array is truthy, but both lead to the same results in every
function below. -/

/-- Body record of a message part (Schema$MessagePartBody). -/
structure BodyInfo where
  data : Option String := none
  size : Option Nat := none
  attachmentId : Option String := none
deriving Repr, DecidableEq

/-- MIME part tree node (Schema$MessagePart). -/
inductive Part where
  | mk : Option String → Option String → Option BodyInfo → Option (List Part) → Part
deriving Repr

/-- The mimeType field. -/
def Part.mimeType : Part → Option String
  | .mk m _ _ _ => m

/-- The filename field. -/
def Part.filename : Part → Option String
  | .mk _ f _ _ => f

/-- The body field. -/
def Part.body : Part → Option BodyInfo
  | .mk _ _ b _ => b

/-- The parts field. -/
def Part.parts : Part → Option (List Part)
  | .mk _ _ _ ps => ps

/-- Truthiness of payload.body?.data: absent body, absent data and the
empty string are all falsy in JavaScript; the remaining cases give the
data string. -/
def bodyData (p : Part) : String :=
  (p.body.bind BodyInfo.data).getD ""

/-! ## Body extraction (source gmail.ts extractBody, lines 45-76; the
copy in write.ts lines 103-134 is textually identical). -/

mutual

/-- Body of extractBody for a present payload argument.  The local
consts decoded, textPart, textData, htmlPart and htmlData of the source
are inlined (each names a pure expression, so inlining preserves the
semantics). -/
def extractBodySome : Part → String
  | .mk mimeType _ body parts =>
    if (body.bind BodyInfo.data).getD "" ≠ "" then
      if mimeType = some "text/plain" then
        decodeBase64Url ((body.bind BodyInfo.data).getD "")
      else if mimeType = some "text/html" then
        stripHtmlTags (decodeBase64Url ((body.bind BodyInfo.data).getD ""))
      else decodeBase64Url ((body.bind BodyInfo.data).getD "")
    else
      match parts with
      | none => ""
      | some ps =>
        if (((ps.find? (fun q => q.mimeType = some "text/plain")).bind Part.body).bind
              BodyInfo.data).getD "" ≠ "" then
          decodeBase64Url ((((ps.find? (fun q => q.mimeType = some "text/plain")).bind
            Part.body).bind BodyInfo.data).getD "")
        else if (((ps.find? (fun q => q.mimeType = some "text/html")).bind Part.body).bind
              BodyInfo.data).getD "" ≠ "" then
          stripHtmlTags (decodeBase64Url ((((ps.find? (fun q => q.mimeType = some "text/html")).bind
            Part.body).bind BodyInfo.data).getD ""))
        else extractBodyFromList ps

/-- The final loop of extractBody: recurse into each child in order and
return the first non empty result. -/
def extractBodyFromList : List Part → String
  | [] => ""
  | q :: qs =>
    let b := extractBodySome q
    if b ≠ "" then b else extractBodyFromList qs

end

/-- Source gmail.ts line 45: extractBody on the optional payload. -/
def extractBody : Option Part → String
  | none => ""
  | some p => extractBodySome p

/-! ## Attachment enumeration

Two near duplicate implementations exist in the source.  The one in
services/gmail.ts (lines 78-99) collects every child part with a non
empty filename; the one in tools/write.ts (lines 136-158) additionally
requires a body attachmentId and records it. -/

/-- Descriptor produced by the services/gmail.ts enumerator. -/
structure Attachment where
  filename : String
  mimeType : String
  size : Nat
deriving Repr, DecidableEq

/-- Descriptor produced by the tools/write.ts enumerator. -/
structure AttachmentW where
  filename : String
  mimeType : String
  size : Nat
  attachmentId : String
deriving Repr, DecidableEq

mutual

/-- Body of the services/gmail.ts extractAttachments for a present
payload: iterate over the children, collect named ones, recurse where a
parts field is present. -/
def extractAttachmentsSome : Part → List Attachment
  | .mk _ _ _ parts =>
    match parts with
    | none => []
    | some ps => extractAttachmentsList ps

/-- Loop over the children in the services/gmail.ts enumerator. -/
def extractAttachmentsList : List Part → List Attachment
  | [] => []
  | q :: qs =>
    (if (q.filename.getD "") ≠ "" then
      [{ filename := q.filename.getD ""
         mimeType := q.mimeType.getD "application/octet-stream"
         size := (q.body.bind BodyInfo.size).getD 0 }]
     else []) ++
    (match q.parts with
     | some _ => extractAttachmentsSome q
     | none => []) ++
    extractAttachmentsList qs

end

/-- Source gmail.ts line 78: extractAttachments. -/
def extractAttachments : Option Part → List Attachment
  | none => []
  | some p => extractAttachmentsSome p

mutual

/-- Body of the tools/write.ts extractAttachments for a present
payload. -/
def extractAttachmentsWSome : Part → List AttachmentW
  | .mk _ _ _ parts =>
    match parts with
    | none => []
    | some ps => extractAttachmentsWList ps

/-- Loop over the children in the tools/write.ts enumerator: a part
counts only when filename is non empty and body.attachmentId is
truthy. -/
def extractAttachmentsWList : List Part → List AttachmentW
  | [] => []
  | q :: qs =>
    (if (q.filename.getD "") ≠ "" ∧ ((q.body.bind BodyInfo.attachmentId).getD "") ≠ "" then
      [{ filename := q.filename.getD ""
         mimeType := q.mimeType.getD "application/octet-stream"
         size := (q.body.bind BodyInfo.size).getD 0
         attachmentId := (q.body.bind BodyInfo.attachmentId).getD "" }]
     else []) ++
    (match q.parts with
     | some _ => extractAttachmentsWSome q
     | none => []) ++
    extractAttachmentsWList qs

end

/-- Source write.ts line 136: extractAttachments of the write tools
file. -/
def extractAttachmentsW : Option Part → List AttachmentW
  | none => []
  | some p => extractAttachmentsWSome p

/-! ## Headers (getHeader, gmail.ts lines 38-43) -/

/-- One RFC 822 style header pair of the API schema; both fields are
optional. -/
structure Header where
  name : Option String := none
  value : Option String := none
deriving Repr, DecidableEq

/-- Source gmail.ts line 38: getHeader.  First case insensitive match by
name; a missing list, a missing match or a missing value give the empty
string. -/
def getHeader (headers : Option (List Header)) (name : String) : String :=
  match headers with
  | none => ""
  | some hs =>
    (((hs.find? (fun h => h.name.map lowerStr = some (lowerStr name))).bind
      Header.value).getD "")

/-- Model of String.prototype.startsWith restricted to the literal
prefix test the source performs. -/
def startsWithStr (s pre : String) : Bool := pre.data.isPrefixOf s.data

/-- Reply threading derivation, the pure core of replyToMessage
(gmail.ts lines 245-257, identical in write.ts lines 412-424): values
computed from the original message headers and passed to
buildRawMessage.  Result order: to, inReplyTo, references,
threadSubject. -/
def replyFields (headers : Option (List Header)) : String × String × String × String :=
  let originalMessageId := getHeader headers "Message-ID"
  let references := getHeader headers "References"
  let subject := getHeader headers "Subject"
  let fromValue := getHeader headers "From"
  (fromValue,
   originalMessageId,
   if references ≠ "" then references ++ " " ++ originalMessageId else originalMessageId,
   if startsWithStr subject "Re:" then subject else "Re: " ++ subject)

/-! ## Message building

buildRawMessage exists twice: services/gmail.ts lines 176-200 (no
attachment support) and tools/write.ts lines 263-334 (with an
attachment branch).  The boundary token of the write.ts version is
built from Date.now and Math.random; those two nondeterministic values
enter the embedding as parameters.  Reading an attachment file is
modelled by a read function from paths to optional byte lists; a none
result models a readFileSync exception, which aborts the build. -/

/-- Compose options accepted by buildRawMessage.  The write.ts variant
reads the attachments field; the gmail.ts variant has no such
parameter, which the embedding represents by that field being ignored
there.  The source field named to is spelled toAddr because to is a
reserved token in this Lean environment. -/
structure RawOptions where
  toAddr : String
  subject : String
  body : String
  cc : Option String := none
  bcc : Option String := none
  inReplyTo : Option String := none
  references : Option String := none
  threadSubject : Option String := none
  attachments : Option (List String) := none
deriving Repr

/-- JavaScript truthiness of an optional string field. -/
def truthy (o : Option String) : Bool := (o.getD "") ≠ ""

/-- Array.prototype.join with the CRLF separator. -/
def joinCRLF : List String → String
  | [] => ""
  | [x] => x
  | x :: xs => x ++ "\r\n" ++ joinCRLF xs

/-- Header block plus body of the no attachment branch, the lines array
built by gmail.ts lines 186-197 (identical in write.ts lines 277-288). -/
def simpleLines (o : RawOptions) : List String :=
  ["To: " ++ o.toAddr] ++
  (if truthy o.cc then ["Cc: " ++ o.cc.getD ""] else []) ++
  (if truthy o.bcc then ["Bcc: " ++ o.bcc.getD ""] else []) ++
  ["Subject: " ++ o.threadSubject.getD o.subject,
   "Content-Type: text/plain; charset=utf-8"] ++
  (if truthy o.inReplyTo then
    ["In-Reply-To: " ++ o.inReplyTo.getD "",
     "References: " ++ o.references.getD (o.inReplyTo.getD "")]
   else []) ++
  ["", o.body]

/-- Source gmail.ts line 176: buildRawMessage (no attachment support). -/
def buildRawMessage (o : RawOptions) : String :=
  encodeBase64Url (joinCRLF (simpleLines o))

/-- Model of path.basename restricted to forward slash separated paths
without trailing separators, the shapes this code base passes. -/
def basenameOf (p : String) : String :=
  String.mk (((p.data.splitOn '/').getLastD []))

/-- Model of path.extname on a plain file name: the suffix from the
last dot, empty when there is no dot or the only dot is the leading
character. -/
def extnameOf (s : String) : String :=
  match s.data.splitOn '.' with
  | [] => ""
  | [_] => ""
  | [[], _] => ""
  | ps => String.mk ('.' :: ps.getLastD [])

/-- Extension to MIME type table of write.ts guessMimeType
(lines 336-365). -/
def mimeTable : List (String × String) :=
  [(".pdf", "application/pdf"),
   (".zip", "application/zip"),
   (".gz", "application/gzip"),
   (".tar", "application/x-tar"),
   (".doc", "application/msword"),
   (".docx", "application/vnd.openxmlformats-officedocument.wordprocessingml.document"),
   (".xls", "application/vnd.ms-excel"),
   (".xlsx", "application/vnd.openxmlformats-officedocument.spreadsheetml.sheet"),
   (".ppt", "application/vnd.ms-powerpoint"),
   (".pptx", "application/vnd.openxmlformats-officedocument.presentationml.presentation"),
   (".png", "image/png"),
   (".jpg", "image/jpeg"),
   (".jpeg", "image/jpeg"),
   (".gif", "image/gif"),
   (".svg", "image/svg+xml"),
   (".webp", "image/webp"),
   (".txt", "text/plain"),
   (".csv", "text/csv"),
   (".html", "text/html"),
   (".json", "application/json"),
   (".xml", "application/xml"),
   (".mp3", "audio/mpeg"),
   (".mp4", "video/mp4"),
   (".wav", "audio/wav")]

/-- Linear lookup over the extension table. -/
def lookupStr : List (String × String) → String → Option String
  | [], _ => none
  | (k, v) :: rest, key => if k = key then some v else lookupStr rest key

/-- Source write.ts line 336: guessMimeType. -/
def guessMimeType (filename : String) : String :=
  (lookupStr mimeTable (lowerStr (extnameOf filename))).getD "application/octet-stream"

/-- Slicing a character list into blocks of seventy six, the for loop of
write.ts lines 326-328; an empty input yields no block. -/
def chunkChars : List Char → List (List Char)
  | [] => []
  | c :: cs => (c :: cs).take 76 :: chunkChars ((c :: cs).drop 76)
termination_by l => l.length
decreasing_by
simp [List.length_cons, List.length_drop]
omega

/-- Base64 body lines of one attachment, wrapped at seventy six
characters. -/
def chunks76 (s : String) : List String :=
  (chunkChars s.data).map String.mk

/-- Lines pushed for the attachment list of write.ts lines 314-330; a
failing file read aborts the whole build (readFileSync throw). -/
def attachmentLines (fsRead : String → Option (List Nat)) (boundary : String) :
    List String → Option (List String)
  | [] => some []
  | filePath :: rest =>
    match fsRead filePath with
    | none => none
    | some content =>
      let filename := basenameOf filePath
      let encoded := encodeBase64Std content
      let mimeType := guessMimeType filename
      match attachmentLines fsRead boundary rest with
      | none => none
      | some tail =>
        some ((["--" ++ boundary,
                "Content-Type: " ++ mimeType ++ "; name=\"" ++ filename ++ "\"",
                "Content-Transfer-Encoding: base64",
                "Content-Disposition: attachment; filename=\"" ++ filename ++ "\"",
                ""] ++
               chunks76 encoded ++
               [""]) ++ tail)

/-- Source write.ts line 263: buildRawMessage with the attachment
branch.  The parameters nowStr and randStr stand for the Date.now and
Math.random components of the boundary token; fsRead models
fs.readFileSync, none meaning a thrown read error, which propagates as
a none result. -/
def buildRawMessageW (fsRead : String → Option (List Nat)) (nowStr randStr : String)
    (o : RawOptions) : Option String :=
  let hasAttachments := match o.attachments with
    | some l => decide (0 < l.length)
    | none => false
  if hasAttachments then
    let boundary := "boundary_" ++ nowStr ++ "_" ++ randStr
    let headerLines : List String :=
      ["To: " ++ o.toAddr] ++
      (if truthy o.cc then ["Cc: " ++ o.cc.getD ""] else []) ++
      (if truthy o.bcc then ["Bcc: " ++ o.bcc.getD ""] else []) ++
      ["Subject: " ++ o.threadSubject.getD o.subject,
       "MIME-Version: 1.0"] ++
      (if truthy o.inReplyTo then
        ["In-Reply-To: " ++ o.inReplyTo.getD "",
         "References: " ++ o.references.getD (o.inReplyTo.getD "")]
       else []) ++
      ["Content-Type: multipart/mixed; boundary=\"" ++ boundary ++ "\"",
       "",
       "--" ++ boundary,
       "Content-Type: text/plain; charset=utf-8",
       "",
       o.body,
       ""]
    match attachmentLines fsRead boundary (o.attachments.getD []) with
    | none => none
    | some attLines =>
      some (encodeBase64Url (joinCRLF (headerLines ++ attLines ++ ["--" ++ boundary ++ "--"])))
  else
    some (encodeBase64Url (joinCRLF (simpleLines o)))

/-! ## Round trip of the byte level base64url codec -/

/-- Every base64url alphabet character maps back to its sextet value. -/
theorem charSextet_sextetChar : ∀ s, s < 64 → charSextet (sextetChar s) = some s := by
  decide

/-- The lenient sextet scan recovers a mapped sextet list when every
value is a valid sextet. -/
theorem sextetsOf_map_sextetChar (xs : List Nat) (h : ∀ x ∈ xs, x < 64) :
    sextetsOf (xs.map sextetChar) = xs := by
  induction xs with
  | nil => rfl
  | cons x xs ih =>
    have hx : x < 64 := h x (by simp)
    simp only [List.map_cons, sextetsOf, charSextet_sextetChar x hx]
    rw [ih (fun y hy => h y (by simp [hy]))]

/-- Sextet values produced by the encoder are below sixty four. -/
theorem encSex_lt (l : List Nat) (h : ∀ b ∈ l, b < 256) : ∀ x ∈ encSex l, x < 64 := by
  induction l using encSex.induct with
  | case1 => simp [encSex]
  | case2 b1 =>
    have h1 : b1 < 256 := h b1 (by simp)
    simp [encSex]
    omega
  | case3 b1 b2 =>
    have h1 : b1 < 256 := h b1 (by simp)
    have h2 : b2 < 256 := h b2 (by simp)
    simp [encSex]
    omega
  | case4 b1 b2 b3 rest ih =>
    have h1 : b1 < 256 := h b1 (by simp)
    have h2 : b2 < 256 := h b2 (by simp)
    have h3 : b3 < 256 := h b3 (by simp)
    have hrest : ∀ b ∈ rest, b < 256 := fun b hb => h b (by simp [hb])
    simp [encSex]
    refine ⟨by omega, by omega, by omega, by omega, ?_⟩
    exact fun x hx => ih hrest x hx

/-- Decoding the sextet stream of the encoder restores the bytes. -/
theorem decSextets_encSex (l : List Nat) (h : ∀ b ∈ l, b < 256) :
    decSextets (encSex l) = l := by
  induction l using encSex.induct with
  | case1 => rfl
  | case2 b1 =>
    have h1 : b1 < 256 := h b1 (by simp)
    simp [encSex, decSextets]
    omega
  | case3 b1 b2 =>
    have h1 : b1 < 256 := h b1 (by simp)
    have h2 : b2 < 256 := h b2 (by simp)
    simp [encSex, decSextets]
    constructor
    · omega
    · omega
  | case4 b1 b2 b3 rest ih =>
    have h1 : b1 < 256 := h b1 (by simp)
    have h2 : b2 < 256 := h b2 (by simp)
    have h3 : b3 < 256 := h b3 (by simp)
    have hrest : ∀ b ∈ rest, b < 256 := fun b hb => h b (by simp [hb])
    simp [encSex, decSextets, ih hrest]
    refine ⟨by omega, by omega, by omega⟩

/-- C3: the text safe (URL safe base64) codec round trips exactly: for
every byte sequence, including the empty sequence and sequences
containing every byte value 0 to 255, decoding the encoding gives the
bytes back. -/
theorem base64url_roundtrip (l : List Nat) (h : ∀ b ∈ l, b < 256) :
    decodeBase64UrlBytes (encodeBase64UrlBytes l) = l := by
  unfold decodeBase64UrlBytes encodeBase64UrlBytes
  show decSextets (sextetsOf ((encSex l).map sextetChar)) = l
  rw [sextetsOf_map_sextetChar _ (encSex_lt l h), decSextets_encSex l h]

/-- Witness for C3 at the sequence of every byte value 0 to 255. -/
theorem base64url_roundtrip_witness :
    decodeBase64UrlBytes (encodeBase64UrlBytes (List.range 256)) = List.range 256 :=
  base64url_roundtrip (List.range 256) (fun b hb => List.mem_range.mp hb)

/-- A character outside the decode table other than an equals sign is
skipped by the scan, which continues after it. -/
theorem sextetsOf_skip (s t : List Char) (c : Char) (h : charSextet c = none)
    (h2 : c ≠ '=') :
    sextetsOf (s ++ c :: t) = sextetsOf (s ++ t) := by
  induction s with
  | nil => simp [sextetsOf, h, h2]
  | cons a as ih =>
    cases ha : charSextet a with
    | none => by_cases he : a = '=' <;> simp [sextetsOf, ha, he, ih]
    | some v => simp [sextetsOf, ha, ih]

/-- An equals sign terminates the scan: everything after it is
ignored. -/
theorem sextetsOf_eq_stop (s t : List Char) :
    sextetsOf (s ++ '=' :: t) = sextetsOf s := by
  have h0 : charSextet '=' = none := by decide
  induction s with
  | nil => simp [sextetsOf, h0]
  | cons a as ih =>
    cases ha : charSextet a with
    | none => by_cases he : a = '=' <;> simp [sextetsOf, ha, he, ih]
    | some v => simp [sextetsOf, ha, ih]

/-- C4 amended: decoding corrupt base64url input surfaces no error to
the caller: the decode is total; a character outside the decode table
is silently skipped, decoding continuing after it as if the character
were absent, and an equals sign silently terminates the decode, so
corrupt input yields garbled or truncated text with no error signal. -/
theorem decodeBase64Url_lenient :
    (∀ (s t : List Char) (c : Char), charSextet c = none → c ≠ '=' →
      decodeBase64Url (String.mk (s ++ c :: t)) = decodeBase64Url (String.mk (s ++ t))) ∧
    (∀ s t : List Char,
      decodeBase64Url (String.mk (s ++ '=' :: t)) = decodeBase64Url (String.mk s)) := by
  constructor
  · intro s t c h h2
    unfold decodeBase64Url decodeBase64UrlBytes
    have hd : (String.mk (s ++ c :: t)).data = s ++ c :: t := rfl
    have hd2 : (String.mk (s ++ t)).data = s ++ t := rfl
    rw [hd, hd2, sextetsOf_skip s t c h h2]
  · intro s t
    unfold decodeBase64Url decodeBase64UrlBytes
    have hd : (String.mk (s ++ '=' :: t)).data = s ++ '=' :: t := rfl
    have hd2 : (String.mk s).data = s := rfl
    rw [hd, hd2, sextetsOf_eq_stop s t]

/-- Witness for the amended C4: a corrupt exclamation mark in the
middle of the input is skipped without any error, the decode continuing
with the characters after it. -/
theorem decodeBase64Url_lenient_witness :
    decodeBase64Url (String.mk ("SGVsbG8".data ++ '!' :: "Zg".data)) =
      decodeBase64Url (String.mk ("SGVsbG8".data ++ "Zg".data)) :=
  decodeBase64Url_lenient.1 "SGVsbG8".data "Zg".data '!' (by decide) (by decide)

/-- C4 counterexample: corrupt input is not rejected: SGVsbG8! decodes
silently to the truncated text Hello (the invalid exclamation mark is
skipped), and SGVsbG8!Z* decodes silently to Hello followed by the
stray byte 25 (garbled text), where the claim demands a surfaced
decode error. -/
theorem decodeBase64Url_corrupt_counterexample :
    decodeBase64Url "SGVsbG8!" = "Hello" ∧
    decodeBase64Url "SGVsbG8!Z*" = "Hello\x19" := by
  constructor <;>
    simp [decodeBase64Url, decodeBase64UrlBytes, utf8Decode, utf8DecodeList, mkScalar,
      sextetsOf, charSextet, charIdxAux, b64UrlAlphabet, decSextets]

/-! ## Body extraction claims -/

/-- C1 counterexample.  For a root whose children are a text/plain part
without payload, a text/html part with payload (SGk decodes to Hi) and
a text/plain part with payload (VGhpcmQ decodes to Third), the claim
demands the decoded text of the third child, Third; the code returns
the degraded HTML of the second child, Hi, because the child search
selects the first text/plain child by mimeType alone and only then
checks that very child for payload. -/
theorem extractBody_ordering_counterexample :
    extractBody (some (Part.mk (some "multipart/alternative") none none
      (some [Part.mk (some "text/plain") none none none,
             Part.mk (some "text/html") none (some { data := some "SGk" }) none,
             Part.mk (some "text/plain") none (some { data := some "VGhpcmQ" }) none]))) = "Hi" ∧
    decodeBase64Url "VGhpcmQ" = "Third" ∧ ("Hi" : String) ≠ "Third" := by
  refine ⟨?_, ?_, by decide⟩
  · simp [extractBody, extractBodySome, bodyData, Part.mimeType, Part.body, Part.parts,
      List.find?, decodeBase64Url, decodeBase64UrlBytes, utf8Decode, utf8DecodeList, mkScalar,
      sextetsOf, charSextet, charIdxAux, b64UrlAlphabet, decSextets, stripHtmlTags,
      replaceBrAll, matchBr, matchBrTail, replaceAllBy, isPrefixOfBy, charEqCI, charEqCS,
      lowerChar, stripTagsAll, tagRest, jsTrim, jsWhitespace]
  · simp [decodeBase64Url, decodeBase64UrlBytes, utf8Decode, utf8DecodeList, mkScalar,
      sextetsOf, charSextet, charIdxAux, b64UrlAlphabet, decSextets]

/-- C1 amended: for a part with children and no own payload, the search
selects the first child whose mimeType is exactly text/plain; only that
child is checked for payload, and its decoded payload is returned when
present (even when a text/html child precedes it).  When the selected
text/plain child lacks payload, the first text/html child is checked
the same way and its degraded decode returned; descent into
grandchildren happens only after both checks fail. -/
theorem extractBody_first_plain :
    (∀ (m f : Option String) (b : Option BodyInfo) (ps : List Part) (tp : Part),
      (b.bind BodyInfo.data).getD "" = "" →
      ps.find? (fun q => q.mimeType = some "text/plain") = some tp →
      bodyData tp ≠ "" →
      extractBodySome (Part.mk m f b (some ps)) = decodeBase64Url (bodyData tp)) ∧
    (∀ (m f : Option String) (b : Option BodyInfo) (ps : List Part) (tp hp : Part),
      (b.bind BodyInfo.data).getD "" = "" →
      ps.find? (fun q => q.mimeType = some "text/plain") = some tp →
      bodyData tp = "" →
      ps.find? (fun q => q.mimeType = some "text/html") = some hp →
      bodyData hp ≠ "" →
      extractBodySome (Part.mk m f b (some ps)) =
        stripHtmlTags (decodeBase64Url (bodyData hp))) := by
  constructor
  · intro m f b ps tp hb hfind hdata
    simp only [bodyData] at hdata
    simp only [extractBodySome.eq_def, hb]
    rw [if_neg (fun h => h rfl)]
    rw [hfind, Option.some_bind]
    rw [if_pos hdata]
    simp only [bodyData]
  · intro m f b ps tp hp hb hfind hdata hhtml hhdata
    simp only [bodyData] at hdata hhdata
    simp only [extractBodySome.eq_def, hb]
    rw [if_neg (fun h => h rfl)]
    rw [hfind, Option.some_bind, hdata]
    rw [if_neg (fun h => h rfl)]
    rw [hhtml, Option.some_bind]
    rw [if_pos hhdata]
    simp only [bodyData]

/-- Witness for the amended C1: the plain child wins when it has
payload even behind an HTML child, and the HTML child is used when the
first plain child has no payload. -/
theorem extractBody_first_plain_witness :
    extractBodySome (Part.mk (some "multipart/alternative") none none
      (some [Part.mk (some "text/html") none (some { data := some "SGk" }) none,
             Part.mk (some "text/plain") none (some { data := some "VGhpcmQ" }) none])) =
      decodeBase64Url "VGhpcmQ" ∧
    extractBodySome (Part.mk (some "multipart/alternative") none none
      (some [Part.mk (some "text/plain") none none none,
             Part.mk (some "text/html") none (some { data := some "SGk" }) none])) =
      stripHtmlTags (decodeBase64Url "SGk") := by
  constructor
  · have h := extractBody_first_plain.1 (some "multipart/alternative") none none
      [Part.mk (some "text/html") none (some { data := some "SGk" }) none,
       Part.mk (some "text/plain") none (some { data := some "VGhpcmQ" }) none]
      (Part.mk (some "text/plain") none (some { data := some "VGhpcmQ" }) none)
      rfl (by simp [List.find?, Part.mimeType]) (by simp [bodyData, Part.body])
    simpa [bodyData, Part.body] using h
  · have h := extractBody_first_plain.2 (some "multipart/alternative") none none
      [Part.mk (some "text/plain") none none none,
       Part.mk (some "text/html") none (some { data := some "SGk" }) none]
      (Part.mk (some "text/plain") none none none)
      (Part.mk (some "text/html") none (some { data := some "SGk" }) none)
      rfl (by simp [List.find?, Part.mimeType]) (by simp [bodyData, Part.body])
      (by simp [List.find?, Part.mimeType]) (by simp [bodyData, Part.body])
    simpa [bodyData, Part.body] using h

/-- C10: a part carrying both a non empty inline payload and children
is decoded by the leaf rule, with HTML degradation exactly when the
mimeType is text/html, and the children are never examined (the result
does not depend on the parts field). -/
theorem extractBody_payload_precedence (m f : Option String) (bi : BodyInfo)
    (ps : Option (List Part)) (d : String) (hd : bi.data = some d) (hne : d ≠ "") :
    extractBody (some (Part.mk m f (some bi) ps)) =
      (if m = some "text/html" then stripHtmlTags (decodeBase64Url d)
       else decodeBase64Url d) := by
  have hcond : ((some bi).bind BodyInfo.data).getD "" ≠ "" := by simp [hd, hne]
  show extractBodySome (Part.mk m f (some bi) ps) = _
  simp only [extractBodySome.eq_def]
  rw [if_pos hcond]
  rw [show ((some bi).bind BodyInfo.data).getD "" = d from by simp [hd]]
  by_cases hp : m = some "text/plain"
  · rw [if_pos hp, if_neg (by rw [hp]; simp)]
  · rw [if_neg hp]

/-- Witness for C10: a text/plain part with payload and a child is
decoded from its own payload. -/
theorem extractBody_payload_precedence_witness :
    extractBody (some (Part.mk (some "text/plain") none (some { data := some "SGk" })
      (some [Part.mk (some "text/html") none (some { data := some "VGhpcmQ" }) none]))) =
      decodeBase64Url "SGk" := by
  have h := extractBody_payload_precedence (some "text/plain") none { data := some "SGk" }
    (some [Part.mk (some "text/html") none (some { data := some "VGhpcmQ" }) none])
    "SGk" rfl (by decide)
  simpa using h

/-- C9: the decode side is total by construction in this embedding
(every function is a total Lean function over every tree shape the API
type admits, so no input can raise), and an absent root degrades to the
empty string and the empty attachment list; a part with no fields at
all degrades the same way. -/
theorem decode_side_total :
    extractBody none = "" ∧ extractAttachments none = [] ∧ extractAttachmentsW none = [] ∧
    extractBody (some (Part.mk none none none none)) = "" ∧
    extractAttachments (some (Part.mk none none none none)) = [] ∧
    extractAttachmentsW (some (Part.mk none none none none)) = [] := by
  refine ⟨rfl, rfl, rfl, ?_, ?_, ?_⟩
  · simp [extractBody, extractBodySome]
  · simp [extractAttachments, extractAttachmentsSome]
  · simp [extractAttachmentsW, extractAttachmentsWSome]

/-! ## Attachment enumeration claims -/

/-- Pre-order listing of the strict descendants of a forest: each node
precedes its own descendants, siblings are kept left to right.  Spec
side definition used to state the amended C2. -/
def preForest : List Part → List Part
  | [] => []
  | Part.mk m f b none :: qs => Part.mk m f b none :: preForest qs
  | Part.mk m f b (some ps) :: qs =>
    Part.mk m f b (some ps) :: (preForest ps ++ preForest qs)

/-- Descriptor of one part in the services/gmail.ts enumerator: parts
with a non empty filename yield one descriptor, with the source
defaults for mimeType and size; no attachment reference is required. -/
def descrOf (q : Part) : Option Attachment :=
  if (q.filename.getD "") ≠ "" then
    some { filename := q.filename.getD ""
           mimeType := q.mimeType.getD "application/octet-stream"
           size := (q.body.bind BodyInfo.size).getD 0 }
  else none

/-- The enumerator loop is the descriptor filter over the pre-order
listing of a forest. -/
theorem extractAttachmentsList_eq_preForest (l : List Part) :
    extractAttachmentsList l = (preForest l).filterMap descrOf := by
  induction l using preForest.induct with
  | case1 => simp [extractAttachmentsList, preForest]
  | case2 m f b qs ih =>
    simp [extractAttachmentsList, preForest, List.filterMap_cons, descrOf,
      Part.parts, Part.filename, Part.mimeType, Part.body, ih]
    split
    · simp
    · simp
  | case3 m f b ps qs ih1 ih2 =>
    simp [extractAttachmentsList, extractAttachmentsSome, preForest, List.filterMap_cons,
      List.filterMap_append, descrOf, Part.parts, Part.filename, Part.mimeType, Part.body,
      ih1, ih2]
    split
    · simp
    · simp

/-- C2 amended: the services/gmail.ts enumerator returns exactly one
descriptor per part strictly below the root with a non empty filename,
in pre-order (parent before children, siblings left to right), and a
named part without an attachment reference still yields a descriptor;
the root part itself is never examined, so a named root with no
children yields the empty list (and the tools/write.ts variant
additionally drops named parts whose body carries no attachmentId). -/
theorem extractAttachments_preorder (p : Part) :
    extractAttachments (some p) = (preForest (p.parts.getD [])).filterMap descrOf := by
  cases p with
  | mk m f b ps =>
    cases ps with
    | none => simp [extractAttachments, extractAttachmentsSome, Part.parts, preForest]
    | some l =>
      simp [extractAttachments, extractAttachmentsSome, Part.parts]
      exact extractAttachmentsList_eq_preForest l

/-- C2 counterexample: a root part with non empty filename and no
children yields no descriptor (the claim demands one for the root), and
the tools/write.ts enumerator drops a named child that lacks an
attachmentId (the claim says enumeration never drops a named part for
lacking byte access). -/
theorem extractAttachments_root_counterexample :
    extractAttachments (some (Part.mk none (some "root.txt") none none)) = [] ∧
    extractAttachmentsW (some (Part.mk none none none
      (some [Part.mk (some "image/png") (some "a.png") (some { size := some 5 }) none]))) = [] := by
  constructor
  · simp [extractAttachments, extractAttachmentsSome, Part.parts]
  · simp [extractAttachmentsW, extractAttachmentsWSome, extractAttachmentsWList,
      Part.parts, Part.filename, Part.body, bodyData]

/-! ## Reply threading claims -/

/-- C7 counterexample: when the original carries a References header
whose value is the empty string, the claim places the derivation in its
first branch (References value with the Message-ID appended, giving a
leading space), but the code tests the looked up string for emptiness
and returns just the Message-ID. -/
theorem replyFields_empty_references_counterexample :
    replyFields (some [{ name := some "References", value := some "" },
                       { name := some "Message-ID", value := some "<a@x>" },
                       { name := some "Subject", value := some "Hi" },
                       { name := some "From", value := some "x@y" }]) =
      ("x@y", "<a@x>", "<a@x>", "Re: Hi") ∧
    ("<a@x>" : String) ≠ " <a@x>" := by
  constructor
  · decide
  · decide

/-- C7 amended: with the header lookup being first case insensitive
match defaulting to empty, the derivation yields inReplyTo equal to the
Message-ID lookup, references equal to just the Message-ID whenever the
References lookup is empty (header absent or its value empty) and
otherwise the References value with the Message-ID appended space
separated, threadSubject equal to the Subject unchanged when it starts
with the literal prefix Re: and otherwise with Re: and a space
prepended, and the reply recipient equal to the From lookup. -/
theorem replyFields_amended (hs : Option (List Header)) (mid refs subj frm : String)
    (h1 : getHeader hs "Message-ID" = mid) (h2 : getHeader hs "References" = refs)
    (h3 : getHeader hs "Subject" = subj) (h4 : getHeader hs "From" = frm) :
    replyFields hs = (frm, mid,
      if refs = "" then mid else refs ++ " " ++ mid,
      if startsWithStr subj "Re:" then subj else "Re: " ++ subj) := by
  subst h1
  subst h2
  subst h3
  subst h4
  simp only [replyFields]
  by_cases hr : getHeader hs "References" = ""
  · simp [hr]
  · simp [hr]

/-- Witness for the amended C7 at the headers of the spec example:
Message-ID of abc at x, References of zzz at x, Subject Meeting, From
a at b dot com. -/
theorem replyFields_amended_witness :
    replyFields (some [{ name := some "Message-ID", value := some "<abc@x>" },
                       { name := some "References", value := some "<zzz@x>" },
                       { name := some "Subject", value := some "Meeting" },
                       { name := some "From", value := some "a@b.com" }]) =
      ("a@b.com", "<abc@x>", "<zzz@x> <abc@x>", "Re: Meeting") := by
  have h := replyFields_amended
    (some [{ name := some "Message-ID", value := some "<abc@x>" },
           { name := some "References", value := some "<zzz@x>" },
           { name := some "Subject", value := some "Meeting" },
           { name := some "From", value := some "a@b.com" }])
    "<abc@x>" "<zzz@x>" "Meeting" "a@b.com" (by decide) (by decide) (by decide) (by decide)
  exact h.trans (by decide)

/-! ## HTML degradation claims -/

/-- C8 counterexample: a br tag carrying an attribute is not replaced by
a line break; the br regex admits only whitespace and an optional slash
after br, so the tag falls through to the generic stripping rule and is
removed, giving ab instead of a line break between a and b. -/
theorem stripHtmlTags_br_attribute_counterexample :
    stripHtmlTags "a<br x>b" = "ab" ∧ ("ab" : String) ≠ "a\nb" := by
  constructor
  · simp [stripHtmlTags, replaceBrAll, matchBr, matchBrTail, replaceAllBy, isPrefixOfBy,
      charEqCI, charEqCS, lowerChar, stripTagsAll, tagRest, jsTrim, jsWhitespace]
  · decide

/-- Dropping a whitespace prefix of an append reduces to the tail. -/
theorem dropWhile_append_of_all {p : Char → Bool} {ws : List Char}
    (h : ∀ c ∈ ws, p c = true) (t : List Char) :
    (ws ++ t).dropWhile p = t.dropWhile p := by
  induction ws with
  | nil => rfl
  | cons a as ih =>
    simp only [List.cons_append, List.dropWhile_cons, h a (by simp), if_true]
    exact ih (fun c hc => h c (by simp [hc]))

/-- C8 amended: the degradation performs, in this order, the br
replacement (a newline), the closing p replacement (two newlines), the
closing div replacement (one newline), the generic tag strip, the five
entity decodes and the final trim; and the br matcher accepts exactly
the tags consisting of br (case insensitive) followed by whitespace and
an optional slash before the closing bracket, so a br tag carrying an
attribute is not replaced by a line break but stripped by the generic
rule. -/
theorem stripHtmlTags_amended :
    (∀ s : String, stripHtmlTags s = String.mk (jsTrim
      (replaceAllBy charEqCS "&#39;".data [Char.ofNat 39]
        (replaceAllBy charEqCS "&quot;".data "\"".data
          (replaceAllBy charEqCS "&gt;".data ">".data
            (replaceAllBy charEqCS "&lt;".data "<".data
              (replaceAllBy charEqCS "&amp;".data "&".data
                (replaceAllBy charEqCS "&nbsp;".data " ".data
                  (stripTagsAll
                    (replaceAllBy charEqCI "</div>".data "\n".data
                      (replaceAllBy charEqCI "</p>".data "\n\n".data
                        (replaceBrAll s.data)))))))))))) ∧
    (∀ (l res : List Char), matchBr l = some res ↔
      ∃ b r ws sl, (b = 'b' ∨ b = 'B') ∧ (r = 'r' ∨ r = 'R') ∧
        (∀ c ∈ ws, jsWhitespace c = true) ∧ (sl = [] ∨ sl = ['/']) ∧
        l = '<' :: b :: r :: (ws ++ (sl ++ '>' :: res))) := by
  constructor
  · intro s
    rfl
  · intro l res
    constructor
    · intro h
      unfold matchBr at h
      split at h
      case _ b r rest =>
        split at h
        case isTrue hcond =>
          unfold matchBrTail at h
          split at h
          case _ t heq =>
            cases h
            have h5 : rest = rest.takeWhile jsWhitespace ++ ('/' :: '>' :: res) := by
              conv_lhs => rw [← List.takeWhile_append_dropWhile jsWhitespace rest]
              rw [heq]
            refine ⟨b, r, rest.takeWhile jsWhitespace, ['/'], hcond.1, hcond.2,
              (fun c hc => List.mem_takeWhile_imp hc), Or.inr rfl, ?_⟩
            conv_lhs => rw [h5]
            simp
          case _ t heq =>
            cases h
            have h5 : rest = rest.takeWhile jsWhitespace ++ ('>' :: res) := by
              conv_lhs => rw [← List.takeWhile_append_dropWhile jsWhitespace rest]
              rw [heq]
            refine ⟨b, r, rest.takeWhile jsWhitespace, [], hcond.1, hcond.2,
              (fun c hc => List.mem_takeWhile_imp hc), Or.inl rfl, ?_⟩
            conv_lhs => rw [h5]
            simp
          case _ => cases h
        case isFalse => cases h
      case _ => cases h
    · rintro ⟨b, r, ws, sl, hb, hr2, hws, hsl, rfl⟩
      show (if (b = 'b' ∨ b = 'B') ∧ (r = 'r' ∨ r = 'R') then
        matchBrTail (ws ++ (sl ++ '>' :: res)) else none) = some res
      rw [if_pos ⟨hb, hr2⟩]
      unfold matchBrTail
      have h62 : jsWhitespace '>' = false := by decide
      have h47 : jsWhitespace '/' = false := by decide
      rw [dropWhile_append_of_all hws]
      rcases hsl with rfl | rfl
      · simp [List.dropWhile_cons, h62]
      · simp [List.dropWhile_cons, h47]

/-! ## Message building claims -/

/-- Appending the empty string on the left is the identity. -/
theorem strEmptyAppend (s : String) : "" ++ s = s := by
  cases s with
  | mk d => rfl

/-- Appending the empty string on the right is the identity. -/
theorem strAppendEmpty (s : String) : s ++ "" = s := by
  cases s with
  | mk d =>
    show String.mk (d ++ []) = String.mk d
    rw [List.append_nil]

/-- String concatenation is associative. -/
theorem strAppendAssoc (a b c : String) : a ++ b ++ c = a ++ (b ++ c) := by
  cases a with
  | mk x =>
    cases b with
    | mk y =>
      cases c with
      | mk z =>
        show String.mk (x ++ y ++ z) = String.mk (x ++ (y ++ z))
        rw [List.append_assoc]

/-- C5: the no attachment encode produces, before the outer text safe
encoding, exactly the header lines To, optional Cc, optional Bcc,
Subject (threadSubject when set, else subject), Content-Type
text/plain charset utf-8, then optional In-Reply-To and References,
joined with CRLF, followed by a single blank line and the body; the
References header appears exactly when inReplyTo is present (JavaScript
truthy, that is set and non empty), with value references when set,
else inReplyTo.  The second conjunct: the write.ts builder takes the
same no attachment path when the attachments field is absent or the
empty list. -/
theorem buildRawMessage_layout :
    (∀ o : RawOptions,
      buildRawMessage o =
        encodeBase64Url
          ("To: " ++ o.toAddr ++
           (match o.cc with
            | some c => if c = "" then "" else "\r\n" ++ "Cc: " ++ c
            | none => "") ++
           (match o.bcc with
            | some c => if c = "" then "" else "\r\n" ++ "Bcc: " ++ c
            | none => "") ++
           "\r\n" ++ "Subject: " ++ o.threadSubject.getD o.subject ++
           "\r\n" ++ "Content-Type: text/plain; charset=utf-8" ++
           (match o.inReplyTo with
            | some i => if i = "" then "" else
                "\r\n" ++ "In-Reply-To: " ++ i ++ "\r\n" ++ "References: " ++ o.references.getD i
            | none => "") ++
           "\r\n" ++ "\r\n" ++ o.body)) ∧
    (∀ (fsRead : String → Option (List Nat)) (nowStr randStr : String) (o : RawOptions),
      o.attachments = none ∨ o.attachments = some [] →
      buildRawMessageW fsRead nowStr randStr o = some (buildRawMessage o)) := by
  constructor
  · intro o
    rcases o with ⟨ta, subj, body, cc, bcc, irt, refs, tsub, atts⟩
    simp only [buildRawMessage]
    refine congrArg encodeBase64Url ?_
    cases cc <;> cases bcc <;> cases irt <;>
      simp only [simpleLines, truthy, Option.getD_some, Option.getD_none] <;>
      split_ifs <;>
      simp_all [joinCRLF, strAppendAssoc, strAppendEmpty, strEmptyAppend, -String.reduceAppend]
  · intro fsRead nowStr randStr o h
    rcases h with h | h <;> simp [buildRawMessageW, buildRawMessage, h]

/-- Witness for C5: with an absent attachments field the write.ts
builder agrees with the simple builder. -/
theorem buildRawMessage_layout_witness :
    buildRawMessageW (fun _ => none) "1" "2"
        { toAddr := "a@b", subject := "S", body := "B" } =
      some (buildRawMessage { toAddr := "a@b", subject := "S", body := "B" }) :=
  buildRawMessage_layout.2 (fun _ => none) "1" "2"
    { toAddr := "a@b", subject := "S", body := "B" } (Or.inl rfl)

/-- Every block of the seventy six character slicing has length at most
seventy six. -/
theorem chunkChars_le (l : List Char) : ∀ c ∈ chunkChars l, c.length ≤ 76 := by
  induction l using chunkChars.induct with
  | case1 => simp [chunkChars]
  | case2 c cs ih =>
    intro x hx
    simp only [chunkChars] at hx
    rcases List.mem_cons.mp hx with h1 | h2
    · subst h1
      simp [List.length_take]
    · exact ih x h2

/-- Every base64 body line of an attachment has length at most seventy
six. -/
theorem chunks76_le (s : String) : ∀ line ∈ chunks76 s, line.length ≤ 76 := by
  intro line hl
  simp only [chunks76, List.mem_map] at hl
  obtain ⟨c, hc, rfl⟩ := hl
  have := chunkChars_le s.data c hc
  simpa [String.length] using this

/-- C6: with exactly one attachment whose bytes are readable, the
encode produces, before the outer text safe encoding, a multipart/mixed
message with exactly two body parts between boundary markers, the
first the text/plain body and the second carrying
Content-Transfer-Encoding base64 with the standard base64 content of
the attachment split into lines of at most seventy six characters
(trailing partial line included), and the final boundary line ends
with two dashes. -/
theorem buildRawMessageW_single_attachment (fsRead : String → Option (List Nat))
    (nowStr randStr : String) (o : RawOptions) (fp : String) (bytes : List Nat)
    (ha : o.attachments = some [fp]) (hr : fsRead fp = some bytes) :
    buildRawMessageW fsRead nowStr randStr o =
      some (encodeBase64Url (joinCRLF (
        ["To: " ++ o.toAddr] ++
        (if truthy o.cc then ["Cc: " ++ o.cc.getD ""] else []) ++
        (if truthy o.bcc then ["Bcc: " ++ o.bcc.getD ""] else []) ++
        ["Subject: " ++ o.threadSubject.getD o.subject,
         "MIME-Version: 1.0"] ++
        (if truthy o.inReplyTo then
          ["In-Reply-To: " ++ o.inReplyTo.getD "",
           "References: " ++ o.references.getD (o.inReplyTo.getD "")] else []) ++
        ["Content-Type: multipart/mixed; boundary=\"" ++
           ("boundary_" ++ nowStr ++ "_" ++ randStr) ++ "\"",
         "",
         "--" ++ ("boundary_" ++ nowStr ++ "_" ++ randStr),
         "Content-Type: text/plain; charset=utf-8",
         "",
         o.body,
         "",
         "--" ++ ("boundary_" ++ nowStr ++ "_" ++ randStr),
         "Content-Type: " ++ guessMimeType (basenameOf fp) ++ "; name=\"" ++ basenameOf fp ++ "\"",
         "Content-Transfer-Encoding: base64",
         "Content-Disposition: attachment; filename=\"" ++ basenameOf fp ++ "\""] ++
        [""] ++ chunks76 (encodeBase64Std bytes) ++ [""] ++
        ["--" ++ ("boundary_" ++ nowStr ++ "_" ++ randStr) ++ "--"]))) ∧
    ∀ line ∈ chunks76 (encodeBase64Std bytes), line.length ≤ 76 := by
  constructor
  · simp only [buildRawMessageW, ha, attachmentLines, hr]
    simp [List.append_assoc]
  · exact fun line hl => chunks76_le (encodeBase64Std bytes) line hl

set_option maxRecDepth 4000 in
/-- Witness for C6 at a two byte pdf attachment: the bytes 77 and 97
encode as the padded base64 line TWE= and the extension maps to
application/pdf. -/
theorem buildRawMessageW_single_attachment_witness :
    buildRawMessageW (fun p => if p = "files/report.pdf" then some [77, 97] else none)
      "123" "xyz"
      { toAddr := "a@b", subject := "S", body := "B",
        attachments := some ["files/report.pdf"] } =
      some (encodeBase64Url
        ("To: a@b\r\nSubject: S\r\nMIME-Version: 1.0\r\nContent-Type: multipart/mixed; boundary=\"boundary_123_xyz\"\r\n\r\n--boundary_123_xyz\r\nContent-Type: text/plain; charset=utf-8\r\n\r\nB\r\n\r\n--boundary_123_xyz\r\nContent-Type: application/pdf; name=\"report.pdf\"\r\nContent-Transfer-Encoding: base64\r\nContent-Disposition: attachment; filename=\"report.pdf\"\r\n\r\nTWE=\r\n\r\n--boundary_123_xyz--")) := by
  have h := (buildRawMessageW_single_attachment
    (fun p => if p = "files/report.pdf" then some [77, 97] else none) "123" "xyz"
    { toAddr := "a@b", subject := "S", body := "B",
      attachments := some ["files/report.pdf"] }
    "files/report.pdf" [77, 97] rfl (by decide)).1
  rw [h]
  refine congrArg some (congrArg encodeBase64Url ?_)
  have hc : chunks76 (encodeBase64Std [77, 97]) = ["TWE="] := by
    simp [chunks76, chunkChars, encodeBase64Std, encSexStdChars, sextetCharStd, b64StdAlphabet]
  rw [hc]
  decide

end GmailCodec
